import Mathlib

/-!
Shallow embedding of the `time_series` Rust crate (`src/lib.rs`).

`TimeSeries<T>` is a tuple struct wrapping a `Vec<T>`; we model the vector as
a `List T`.  Methods taking `&self` are pure functions.  Operations that can
panic in Rust (range indexing inside `slice`, hence also `diff` and
`pct_change` which call it) return `Option`, with `none` standing for the
panic.  The generic bound `for<'a> &'a T: Add<Output = T>` (and Sub/Mul/Div)
is modelled by passing the element-level operation as an explicit function
argument `T → T → T`; it is total, so division by a zero element simply
follows whatever that function returns, with no extra guard — exactly as in
the source.  `Result<T, E>` is modelled by `Except E T`.
-/

structure TimeSeries (T : Type) where
  data : List T

namespace TimeSeries

/-- `pub fn len(&self) -> usize { self.0.len() }` -/
def len {T : Type} (ts : TimeSeries T) : Nat :=
  ts.data.length

/-- `pub fn get(&self, index: usize) -> Option<T> { self.0.get(index).cloned() }` -/
def get {T : Type} (ts : TimeSeries T) (index : Nat) : Option T :=
  ts.data[index]?

/-- `pub fn pop(&mut self) -> Option<T>`: returns `None` on empty, else
`Some(self.0.remove(0))`.  Modelled state-passing style: the returned pair is
(returned value, sequence after the call). -/
def pop {T : Type} (ts : TimeSeries T) : Option T × TimeSeries T :=
  match ts.data with
  | [] => (none, ts)
  | x :: rest => (some x, ⟨rest⟩)

/-- `pub fn reverse(&self) -> Self`: clones the vector and reverses the clone;
`self` is untouched (the embedding is pure, so non-mutation is intrinsic). -/
def reverse {T : Type} (ts : TimeSeries T) : TimeSeries T :=
  ⟨ts.data.reverse⟩

/-- `pub fn map<U, F>(&self, f: F) -> TimeSeries<U>`: applies `f` to each
element by reference; total, never fails on its own. -/
def map {T U : Type} (ts : TimeSeries T) (f : T → U) : TimeSeries U :=
  ⟨ts.data.map f⟩

/-- `pub fn slice(&self, range: Range<usize>) -> Self { Self(self.0[range].to_vec()) }`.
Rust range indexing `self.0[start..stop]` panics iff `start > stop` or
`stop > len`; the panic is modelled as `none`. -/
def slice {T : Type} (ts : TimeSeries T) (start stop : Nat) : Option (TimeSeries T) :=
  if start ≤ stop ∧ stop ≤ ts.data.length then
    some ⟨(ts.data.drop start).take (stop - start)⟩
  else
    none

/-- `impl Add<&TimeSeries<T>> for TimeSeries<T>`: zips the two vectors and
adds positionally, so the result stops at the shorter length. -/
def add {T : Type} (addOp : T → T → T) (a b : TimeSeries T) : TimeSeries T :=
  ⟨List.zipWith addOp a.data b.data⟩

/-- `impl Sub<&TimeSeries<T>> for TimeSeries<T>`: positional zip with `-`. -/
def sub {T : Type} (subOp : T → T → T) (a b : TimeSeries T) : TimeSeries T :=
  ⟨List.zipWith subOp a.data b.data⟩

/-- `impl Mul<&TimeSeries<T>> for TimeSeries<T>`: positional zip with `*`. -/
def mul {T : Type} (mulOp : T → T → T) (a b : TimeSeries T) : TimeSeries T :=
  ⟨List.zipWith mulOp a.data b.data⟩

/-- `impl Div<&TimeSeries<T>> for TimeSeries<T>`: positional zip with `/`. -/
def div {T : Type} (divOp : T → T → T) (a b : TimeSeries T) : TimeSeries T :=
  ⟨List.zipWith divOp a.data b.data⟩

/-- `fn diff(&self, offset: usize) -> Self`:
`&self.slice(offset..length) - &self.slice(0..length-offset)`.
A panic in either slice (only possible in the first one, when
`offset > length`) makes the whole call panic, i.e. `none` here. -/
def diff {T : Type} (subOp : T → T → T) (ts : TimeSeries T) (offset : Nat) :
    Option (TimeSeries T) :=
  match ts.slice offset ts.len, ts.slice 0 (ts.len - offset) with
  | some a, some b => some (sub subOp a b)
  | _, _ => none

/-- `fn pct_change(&self, offset: usize) -> Self`:
`(&self.slice(offset..length) - &self.slice(0..length-offset)) / &self.slice(0..length-offset)`.
The second and third slice calls are identical pure computations, so the
value is bound once. -/
def pct_change {T : Type} (subOp divOp : T → T → T) (ts : TimeSeries T) (offset : Nat) :
    Option (TimeSeries T) :=
  match ts.slice offset ts.len, ts.slice 0 (ts.len - offset) with
  | some a, some b => some (div divOp (sub subOp a b) b)
  | _, _ => none

/-- Loop body of `TimeSeries::<Result<T, E>>::unwrap`: push each `Ok` value,
return the first `Err` unchanged without looking further. -/
def unwrapGo {T E : Type} : List (Except E T) → Except E (List T)
  | [] => Except.ok []
  | Except.ok v :: rest =>
    match unwrapGo rest with
    | Except.ok vs => Except.ok (v :: vs)
    | Except.error e => Except.error e
  | Except.error e :: _ => Except.error e

/-- `pub fn unwrap(self) -> Result<TimeSeries<T>, E>` on
`TimeSeries<Result<T, E>>` (the spec's `collapse_results`). -/
def unwrap {T E : Type} (ts : TimeSeries (Except E T)) : Except E (TimeSeries T) :=
  match unwrapGo ts.data with
  | Except.ok vs => Except.ok ⟨vs⟩
  | Except.error e => Except.error e

/-- `Clone` for `TimeSeries<T>` (derived in the source): copies the vector. -/
def clone {T : Type} (ts : TimeSeries T) : TimeSeries T :=
  ⟨ts.data⟩

/-- Modelled from the spec: the `auto_impl_ops::auto_ops` macro expansion is
not part of src.  From the core `owned + borrowed` implementation it
generates the `owned + owned` variant by delegation, and the two
`borrowed-left` variants by cloning the left operand and delegating. -/
def opOwnOwn {T : Type} (core : TimeSeries T → TimeSeries T → TimeSeries T)
    (a b : TimeSeries T) : TimeSeries T :=
  core a b

/-- Modelled from the spec: `&a <op> b` clones the borrowed left operand and
delegates to the core `owned + borrowed` implementation. -/
def opRefOwn {T : Type} (core : TimeSeries T → TimeSeries T → TimeSeries T)
    (a b : TimeSeries T) : TimeSeries T :=
  core (clone a) b

/-- Modelled from the spec: `&a <op> &b` clones the borrowed left operand and
delegates to the core `owned + borrowed` implementation. -/
def opRefRef {T : Type} (core : TimeSeries T → TimeSeries T → TimeSeries T)
    (a b : TimeSeries T) : TimeSeries T :=
  core (clone a) b

end TimeSeries

/-! Shared helper lemmas. -/

/-- An element of a positional zip, in `getElem?` form. -/
theorem zipWith_get_some {T : Type} (op : T → T → T) (l1 l2 : List T) (i : Nat)
    (x y : T) (hx : l1[i]? = some x) (hy : l2[i]? = some y) :
    (List.zipWith op l1 l2)[i]? = some (op x y) := by
  rw [List.getElem?_zipWith, hx, hy]

/-- Successful `slice`, unfolded. -/
theorem slice_pos {T : Type} (ts : TimeSeries T) (start stop : Nat)
    (h1 : start ≤ stop) (h2 : stop ≤ ts.len) :
    ts.slice start stop = some ⟨(ts.data.drop start).take (stop - start)⟩ := by
  unfold TimeSeries.slice
  rw [if_pos ⟨h1, h2⟩]

/-- `slice` fails exactly when the range is decreasing or reaches past the
end. -/
theorem slice_none_iff {T : Type} (ts : TimeSeries T) (s e : Nat) :
    ts.slice s e = none ↔ (ts.len < e ∨ e < s) := by
  unfold TimeSeries.slice TimeSeries.len
  split
  · simp only [reduceCtorEq, false_iff]
    omega
  next h =>
    simp only [true_iff]
    omega

/-- `unwrapGo` on a list of successes. -/
theorem unwrapGo_all_ok {T E : Type} (vs : List T) :
    TimeSeries.unwrapGo (E := E) (vs.map Except.ok) = Except.ok vs := by
  induction vs with
  | nil => rfl
  | cons v vs ih => simp [TimeSeries.unwrapGo, ih]

/-- `unwrapGo` short-circuits at the first error. -/
theorem unwrapGo_first_error {T E : Type} (pre post : List (Except E T)) (e : E)
    (hpre : ∀ x ∈ pre, ∃ v, x = Except.ok v) :
    TimeSeries.unwrapGo (pre ++ Except.error e :: post) = Except.error e := by
  induction pre with
  | nil => rfl
  | cons x pre ih =>
    have hx := hpre x (List.mem_cons_self x pre)
    have ih2 := ih fun y hy => hpre y (List.mem_cons_of_mem x hy)
    obtain ⟨v, rfl⟩ := hx
    simp [TimeSeries.unwrapGo, ih2]

/-- A `getElem?` hit is inside the list. -/
theorem get_some_lt {T : Type} (ts : TimeSeries T) (i : Nat) (x : T)
    (hx : ts.get i = some x) : i < ts.len := by
  unfold TimeSeries.get at hx
  unfold TimeSeries.len
  by_contra h
  rw [List.getElem?_eq_none (by omega)] at hx
  exact Option.noConfusion hx

/-! Claim theorems. -/

/-- Claim C1: for every pair of sequences and each of the four elementwise
operators `+ - * /`, the result has length `min (len a) (len b)` and its
element at every in-range position `i` is `a[i] <op> b[i]`; trailing elements
of the longer operand are dropped without error (the zip just stops). -/
theorem claim1_elementwise_ops {T : Type} (addOp subOp mulOp divOp : T → T → T)
    (a b : TimeSeries T) (i : Nat) (x y : T)
    (hx : a.get i = some x) (hy : b.get i = some y) :
    (TimeSeries.add addOp a b).len = min a.len b.len ∧
    (TimeSeries.add addOp a b).get i = some (addOp x y) ∧
    (TimeSeries.sub subOp a b).len = min a.len b.len ∧
    (TimeSeries.sub subOp a b).get i = some (subOp x y) ∧
    (TimeSeries.mul mulOp a b).len = min a.len b.len ∧
    (TimeSeries.mul mulOp a b).get i = some (mulOp x y) ∧
    (TimeSeries.div divOp a b).len = min a.len b.len ∧
    (TimeSeries.div divOp a b).get i = some (divOp x y) := by
  unfold TimeSeries.get at hx hy
  refine ⟨?_, ?_, ?_, ?_, ?_, ?_, ?_, ?_⟩ <;>
    simp [TimeSeries.add, TimeSeries.sub, TimeSeries.mul, TimeSeries.div,
      TimeSeries.len, TimeSeries.get, zipWith_get_some _ _ _ _ _ _ hx hy]

/-- Witness for C1 at concrete integer sequences. -/
theorem claim1_elementwise_ops_witness :
    TimeSeries.get (⟨[1, 2, 3]⟩ : TimeSeries Int) 1 = some 2 ∧
    TimeSeries.get (⟨[10, 20]⟩ : TimeSeries Int) 1 = some 20 ∧
    ((TimeSeries.add (· + ·) (⟨[1, 2, 3]⟩ : TimeSeries Int) ⟨[10, 20]⟩).len = 2 ∧
     (TimeSeries.add (· + ·) (⟨[1, 2, 3]⟩ : TimeSeries Int) ⟨[10, 20]⟩).get 1 = some 22 ∧
     (TimeSeries.sub (· - ·) (⟨[1, 2, 3]⟩ : TimeSeries Int) ⟨[10, 20]⟩).len = 2 ∧
     (TimeSeries.sub (· - ·) (⟨[1, 2, 3]⟩ : TimeSeries Int) ⟨[10, 20]⟩).get 1 = some (-18) ∧
     (TimeSeries.mul (· * ·) (⟨[1, 2, 3]⟩ : TimeSeries Int) ⟨[10, 20]⟩).len = 2 ∧
     (TimeSeries.mul (· * ·) (⟨[1, 2, 3]⟩ : TimeSeries Int) ⟨[10, 20]⟩).get 1 = some 40 ∧
     (TimeSeries.div (· / ·) (⟨[1, 2, 3]⟩ : TimeSeries Int) ⟨[10, 20]⟩).len = 2 ∧
     (TimeSeries.div (· / ·) (⟨[1, 2, 3]⟩ : TimeSeries Int) ⟨[10, 20]⟩).get 1 = some 0) :=
  ⟨rfl, rfl,
    claim1_elementwise_ops (· + ·) (· - ·) (· * ·) (· / ·)
      ⟨[1, 2, 3]⟩ ⟨[10, 20]⟩ 1 2 20 rfl rfl⟩

/-- Claim C2: for `offset ≤ n`, `diff offset` succeeds with a sequence of
length `n - offset` whose element at every in-range position `i` is
`self[offset + i] - self[i]`.  (Here `x = self[offset + i]` and
`y = self[i]`, given through `get`.) -/
theorem claim2_diff {T : Type} (subOp : T → T → T) (ts : TimeSeries T)
    (offset i : Nat) (x y : T)
    (hoff : offset ≤ ts.len)
    (hx : ts.get (offset + i) = some x) (hy : ts.get i = some y) :
    Option.map TimeSeries.len (ts.diff subOp offset) = some (ts.len - offset) ∧
    Option.bind (ts.diff subOp offset) (fun s => s.get i) = some (subOp x y) := by
  have hxl : offset + i < ts.len := get_some_lt ts (offset + i) x hx
  have ha := slice_pos ts offset ts.len hoff (Nat.le_refl _)
  have hb := slice_pos ts 0 (ts.len - offset) (Nat.zero_le _) (Nat.sub_le _ _)
  unfold TimeSeries.get at hx hy
  unfold TimeSeries.diff
  rw [ha, hb]
  have hlen : ts.len = ts.data.length := rfl
  rw [hlen] at hxl ⊢
  constructor
  · simp [TimeSeries.sub, TimeSeries.len]
  · simp only [Option.bind_some]
    unfold TimeSeries.sub TimeSeries.get
    apply zipWith_get_some
    · rw [List.getElem?_take_of_lt (by omega), List.getElem?_drop]
      exact hx
    · rw [Nat.sub_zero, List.drop_zero, List.getElem?_take_of_lt (by omega)]
      exact hy

/-- Witness for C2: `diff 1` on `[1, 2, 4, 7]` has length 3 and its element
at position 2 is `7 - 4 = 3`. -/
theorem claim2_diff_witness :
    1 ≤ TimeSeries.len (⟨[1, 2, 4, 7]⟩ : TimeSeries Int) ∧
    TimeSeries.get (⟨[1, 2, 4, 7]⟩ : TimeSeries Int) (1 + 2) = some 7 ∧
    TimeSeries.get (⟨[1, 2, 4, 7]⟩ : TimeSeries Int) 2 = some 4 ∧
    (Option.map TimeSeries.len
        (TimeSeries.diff (· - ·) (⟨[1, 2, 4, 7]⟩ : TimeSeries Int) 1) = some 3 ∧
      Option.bind (TimeSeries.diff (· - ·) (⟨[1, 2, 4, 7]⟩ : TimeSeries Int) 1)
        (fun s => s.get 2) = some 3) :=
  ⟨by decide, rfl, rfl,
    claim2_diff (· - ·) ⟨[1, 2, 4, 7]⟩ 1 2 7 4 (by decide) rfl rfl⟩

/-- Claim C3: for `offset ≤ n`, `pct_change offset` succeeds with a sequence
of length `n - offset` whose element at every in-range position `i` is
`(self[offset + i] - self[i]) / self[i]`.  The element-level division is an
arbitrary total function on `T`, so a zero divisor gets whatever that
function yields — no extra guard. -/
theorem claim3_pct_change {T : Type} (subOp divOp : T → T → T) (ts : TimeSeries T)
    (offset i : Nat) (x y : T)
    (hoff : offset ≤ ts.len)
    (hx : ts.get (offset + i) = some x) (hy : ts.get i = some y) :
    Option.map TimeSeries.len (ts.pct_change subOp divOp offset) =
      some (ts.len - offset) ∧
    Option.bind (ts.pct_change subOp divOp offset) (fun s => s.get i) =
      some (divOp (subOp x y) y) := by
  have hxl : offset + i < ts.len := get_some_lt ts (offset + i) x hx
  have ha := slice_pos ts offset ts.len hoff (Nat.le_refl _)
  have hb := slice_pos ts 0 (ts.len - offset) (Nat.zero_le _) (Nat.sub_le _ _)
  unfold TimeSeries.get at hx hy
  unfold TimeSeries.pct_change
  rw [ha, hb]
  have hlen : ts.len = ts.data.length := rfl
  rw [hlen] at hxl ⊢
  constructor
  · simp [TimeSeries.sub, TimeSeries.div, TimeSeries.len]
  · simp only [Option.bind_some]
    unfold TimeSeries.sub TimeSeries.div TimeSeries.get
    apply zipWith_get_some
    · apply zipWith_get_some
      · rw [List.getElem?_take_of_lt (by omega), List.getElem?_drop]
        exact hx
      · rw [Nat.sub_zero, List.drop_zero, List.getElem?_take_of_lt (by omega)]
        exact hy
    · rw [Nat.sub_zero, List.drop_zero, List.getElem?_take_of_lt (by omega)]
      exact hy

/-- Witness for C3: `pct_change 1` on `[1, 2, 4, 8]` over `Int`: element at
position 1 is `(4 - 2) / 2 = 1`. -/
theorem claim3_pct_change_witness :
    1 ≤ TimeSeries.len (⟨[1, 2, 4, 8]⟩ : TimeSeries Int) ∧
    TimeSeries.get (⟨[1, 2, 4, 8]⟩ : TimeSeries Int) (1 + 1) = some 4 ∧
    TimeSeries.get (⟨[1, 2, 4, 8]⟩ : TimeSeries Int) 1 = some 2 ∧
    (Option.map TimeSeries.len
        (TimeSeries.pct_change (· - ·) (· / ·) (⟨[1, 2, 4, 8]⟩ : TimeSeries Int) 1) =
        some 3 ∧
      Option.bind
        (TimeSeries.pct_change (· - ·) (· / ·) (⟨[1, 2, 4, 8]⟩ : TimeSeries Int) 1)
        (fun s => s.get 1) = some 1) :=
  ⟨by decide, rfl, rfl,
    claim3_pct_change (· - ·) (· / ·) ⟨[1, 2, 4, 8]⟩ 1 1 4 2 (by decide) rfl rfl⟩

/-- Claim C4: `diff` and `pct_change` fail (panic propagated from the first
`slice`, modelled as `none`) exactly when `offset > n`, and both return the
empty sequence when `offset = n`. -/
theorem claim4_diff_pct_bounds {T : Type} (subOp divOp : T → T → T)
    (ts : TimeSeries T) (off1 off2 : Nat) (h2 : off2 = ts.len) :
    (ts.diff subOp off1 = none ↔ ts.len < off1) ∧
    (ts.pct_change subOp divOp off1 = none ↔ ts.len < off1) ∧
    ts.diff subOp off2 = some ⟨[]⟩ ∧
    ts.pct_change subOp divOp off2 = some ⟨[]⟩ := by
  have hb := slice_pos ts 0 (ts.len - off1) (Nat.zero_le _) (Nat.sub_le _ _)
  have hfail : ∀ o : Nat, ts.len < o → ts.slice o ts.len = none := by
    intro o ho
    rw [slice_none_iff]
    omega
  have hok : ∀ o : Nat, o ≤ ts.len →
      ts.slice o ts.len = some ⟨(ts.data.drop o).take (ts.len - o)⟩ :=
    fun o ho => slice_pos ts o ts.len ho (Nat.le_refl _)
  subst h2
  have hempty : ts.slice ts.len ts.len = some ⟨[]⟩ := by
    rw [hok ts.len (Nat.le_refl _)]
    simp
  have hempty0 : ts.slice 0 (ts.len - ts.len) = some ⟨[]⟩ := by
    have := slice_pos ts 0 (ts.len - ts.len) (Nat.zero_le _) (Nat.sub_le _ _)
    simpa using this
  refine ⟨?_, ?_, ?_, ?_⟩
  · unfold TimeSeries.diff
    rcases Nat.lt_or_ge ts.len off1 with h | h
    · rw [hfail off1 h, hb]
      simpa using h
    · rw [hok off1 h, hb]
      simpa using Nat.not_lt.mpr h
  · unfold TimeSeries.pct_change
    rcases Nat.lt_or_ge ts.len off1 with h | h
    · rw [hfail off1 h, hb]
      simpa using h
    · rw [hok off1 h, hb]
      simpa using Nat.not_lt.mpr h
  · unfold TimeSeries.diff
    rw [hempty, hempty0]
    rfl
  · unfold TimeSeries.pct_change
    rw [hempty, hempty0]
    rfl

/-- Witness for C4 on `[5, 6]` with `off1 = 3 > 2` and `off2 = 2 = len`. -/
theorem claim4_diff_pct_bounds_witness :
    (2 : Nat) = TimeSeries.len (⟨[5, 6]⟩ : TimeSeries Int) ∧
    ((TimeSeries.diff (· - ·) (⟨[5, 6]⟩ : TimeSeries Int) 3 = none ↔
        TimeSeries.len (⟨[5, 6]⟩ : TimeSeries Int) < 3) ∧
      (TimeSeries.pct_change (· - ·) (· / ·) (⟨[5, 6]⟩ : TimeSeries Int) 3 = none ↔
        TimeSeries.len (⟨[5, 6]⟩ : TimeSeries Int) < 3) ∧
      TimeSeries.diff (· - ·) (⟨[5, 6]⟩ : TimeSeries Int) 2 = some ⟨[]⟩ ∧
      TimeSeries.pct_change (· - ·) (· / ·) (⟨[5, 6]⟩ : TimeSeries Int) 2 =
        some ⟨[]⟩) :=
  ⟨rfl, claim4_diff_pct_bounds (· - ·) (· / ·) ⟨[5, 6]⟩ 3 2 rfl⟩

/-- Claim C5: a successful `slice start stop` has length `stop - start` and
its element at every in-range position `i` is `self[start + i]` (a cloned
copy; `self` is untouched — the embedding is pure), success implies the range
was well formed, and `slice` fails exactly when `stop > len` or
`start > stop`. -/
theorem claim5_slice {T : Type} (ts : TimeSeries T) (start stop i s e : Nat)
    (r : TimeSeries T)
    (hr : ts.slice start stop = some r) (hi : i < stop - start) :
    start ≤ stop ∧ stop ≤ ts.len ∧ r.len = stop - start ∧
    r.get i = ts.get (start + i) ∧
    (ts.slice s e = none ↔ (ts.len < e ∨ e < s)) := by
  have hrange : start ≤ stop ∧ stop ≤ ts.len := by
    by_contra h
    rw [(slice_none_iff ts start stop).mpr (by omega)] at hr
    exact Option.noConfusion hr
  obtain ⟨h1, h2⟩ := hrange
  rw [slice_pos ts start stop h1 h2] at hr
  have hr2 : r = ⟨(ts.data.drop start).take (stop - start)⟩ := by
    exact (Option.some_injective _ hr).symm
  subst hr2
  have hlen : ts.data.length = ts.len := rfl
  refine ⟨h1, h2, ?_, ?_, slice_none_iff ts s e⟩
  · simp [TimeSeries.len]
    omega
  · unfold TimeSeries.get
    simp only
    rw [List.getElem?_take_of_lt hi, List.getElem?_drop]

/-- Witness for C5: `slice 1 3` on `[10, 20, 30, 40]` is `[20, 30]`; position
1 of the result is element 2 of the source; `slice 2 5` fails since `5 > 4`. -/
theorem claim5_slice_witness :
    TimeSeries.slice (⟨[10, 20, 30, 40]⟩ : TimeSeries Int) 1 3 = some ⟨[20, 30]⟩ ∧
    (1 : Nat) < 3 - 1 ∧
    (1 ≤ 3 ∧ 3 ≤ TimeSeries.len (⟨[10, 20, 30, 40]⟩ : TimeSeries Int) ∧
      TimeSeries.len (⟨[20, 30]⟩ : TimeSeries Int) = 3 - 1 ∧
      TimeSeries.get (⟨[20, 30]⟩ : TimeSeries Int) 1 =
        TimeSeries.get (⟨[10, 20, 30, 40]⟩ : TimeSeries Int) (1 + 1) ∧
      (TimeSeries.slice (⟨[10, 20, 30, 40]⟩ : TimeSeries Int) 2 5 = none ↔
        (TimeSeries.len (⟨[10, 20, 30, 40]⟩ : TimeSeries Int) < 5 ∨ 5 < 2))) :=
  ⟨rfl, by decide,
    claim5_slice ⟨[10, 20, 30, 40]⟩ 1 3 1 2 5 ⟨[20, 30]⟩ rfl (by decide)⟩

/-- Claim C6: `unwrap` (the spec's `collapse_results`) on an all-success
sequence yields the success carrying the unwrapped values in order; on a
sequence whose first error (in scan order) is `e`, it returns exactly `e`,
whatever comes after — elements past the first error play no role. -/
theorem claim6_collapse_results {T E : Type} (vs : List T)
    (pre post : List (Except E T)) (e : E)
    (hpre : ∀ x ∈ pre, ∃ v, x = Except.ok v) :
    TimeSeries.unwrap (⟨vs.map Except.ok⟩ : TimeSeries (Except E T)) =
      Except.ok ⟨vs⟩ ∧
    TimeSeries.unwrap (⟨pre ++ Except.error e :: post⟩ : TimeSeries (Except E T)) =
      Except.error e := by
  constructor
  · unfold TimeSeries.unwrap
    rw [unwrapGo_all_ok]
  · unfold TimeSeries.unwrap
    rw [unwrapGo_first_error pre post e hpre]

/-- Witness for C6 over `Int` values and `Int` errors: an all-success run,
and a run whose first error 5 hides a later error 3. -/
theorem claim6_collapse_results_witness :
    (∀ x ∈ ([Except.ok 7] : List (Except Int Int)), ∃ v, x = Except.ok v) ∧
    (TimeSeries.unwrap (⟨[(1 : Int), 2].map Except.ok⟩ :
        TimeSeries (Except Int Int)) = Except.ok ⟨[1, 2]⟩ ∧
      TimeSeries.unwrap
          (⟨([Except.ok 7] : List (Except Int Int)) ++
            Except.error 5 :: [Except.error 3, Except.ok 4]⟩ :
            TimeSeries (Except Int Int)) = Except.error 5) :=
  ⟨fun x hx => ⟨7, by rw [List.mem_singleton] at hx; exact hx⟩,
    claim6_collapse_results [1, 2] [Except.ok 7] [Except.error 3, Except.ok 4] 5
      fun x hx => ⟨7, by rw [List.mem_singleton] at hx; exact hx⟩⟩

/-- Claim C7: `pop` (the spec's `pop_front`) on a non-empty sequence removes
and returns the element at position 0, leaving exactly the tail; on an empty
sequence it returns `none` and leaves the sequence empty; repeated on
`[1, 2, 3]` it yields 1, 2, 3, then `none`. -/
theorem claim7_pop_front {T : Type} (ts : TimeSeries T) (x : T) (rest : List T)
    (h : ts.data = x :: rest) :
    ts.pop = (some x, ⟨rest⟩) ∧
    TimeSeries.pop (⟨[]⟩ : TimeSeries T) = (none, ⟨[]⟩) ∧
    TimeSeries.pop (⟨[1, 2, 3]⟩ : TimeSeries Int) = (some 1, ⟨[2, 3]⟩) ∧
    TimeSeries.pop (⟨[2, 3]⟩ : TimeSeries Int) = (some 2, ⟨[3]⟩) ∧
    TimeSeries.pop (⟨[3]⟩ : TimeSeries Int) = (some 3, ⟨[]⟩) ∧
    TimeSeries.pop (⟨[]⟩ : TimeSeries Int) = (none, ⟨[]⟩) := by
  obtain ⟨l⟩ := ts
  simp only at h
  subst h
  exact ⟨rfl, rfl, rfl, rfl, rfl, rfl⟩

/-- Witness for C7 at `[9, 8]`. -/
theorem claim7_pop_front_witness :
    TimeSeries.data (⟨[9, 8]⟩ : TimeSeries Int) = 9 :: [8] ∧
    (TimeSeries.pop (⟨[9, 8]⟩ : TimeSeries Int) = (some 9, ⟨[8]⟩) ∧
      TimeSeries.pop (⟨[]⟩ : TimeSeries Int) = (none, ⟨[]⟩) ∧
      TimeSeries.pop (⟨[1, 2, 3]⟩ : TimeSeries Int) = (some 1, ⟨[2, 3]⟩) ∧
      TimeSeries.pop (⟨[2, 3]⟩ : TimeSeries Int) = (some 2, ⟨[3]⟩) ∧
      TimeSeries.pop (⟨[3]⟩ : TimeSeries Int) = (some 3, ⟨[]⟩) ∧
      TimeSeries.pop (⟨[]⟩ : TimeSeries Int) = (none, ⟨[]⟩)) :=
  ⟨rfl, claim7_pop_front ⟨[9, 8]⟩ 9 [8] rfl⟩

/-- Claim C8: `reverse` returns a new sequence of the same length whose
element at every in-range position `i` is `self[len - 1 - i]`; `self` itself
is untouched (the embedding is pure), and `reverse` is an involution. -/
theorem claim8_reverse {T : Type} (ts : TimeSeries T) (i : Nat)
    (hi : i < ts.len) :
    ts.reverse.len = ts.len ∧
    ts.reverse.get i = ts.get (ts.len - 1 - i) ∧
    ts.reverse.reverse = ts := by
  refine ⟨?_, ?_, ?_⟩
  · simp [TimeSeries.reverse, TimeSeries.len]
  · unfold TimeSeries.reverse TimeSeries.get TimeSeries.len
    exact List.getElem?_reverse hi
  · obtain ⟨l⟩ := ts
    simp [TimeSeries.reverse]

/-- Witness for C8: reversing `[1, 2, 3]` gives `[3, 2, 1]`, its element at
position 0 is the source's last element, and reversing twice restores. -/
theorem claim8_reverse_witness :
    (0 : Nat) < TimeSeries.len (⟨[1, 2, 3]⟩ : TimeSeries Int) ∧
    (TimeSeries.len (TimeSeries.reverse (⟨[1, 2, 3]⟩ : TimeSeries Int)) =
        TimeSeries.len (⟨[1, 2, 3]⟩ : TimeSeries Int) ∧
      TimeSeries.get (TimeSeries.reverse (⟨[1, 2, 3]⟩ : TimeSeries Int)) 0 =
        TimeSeries.get (⟨[1, 2, 3]⟩ : TimeSeries Int)
          (TimeSeries.len (⟨[1, 2, 3]⟩ : TimeSeries Int) - 1 - 0) ∧
      TimeSeries.reverse (TimeSeries.reverse (⟨[1, 2, 3]⟩ : TimeSeries Int)) =
        ⟨[1, 2, 3]⟩) :=
  ⟨by decide, claim8_reverse ⟨[1, 2, 3]⟩ 0 (by decide)⟩

/-- Claim C9: `map f` returns a new sequence of exactly the same length whose
element at every in-range position `i` is `f self[i]`, preserving order;
`map` is a total function and never fails on its own. -/
theorem claim9_map {T U : Type} (ts : TimeSeries T) (f : T → U) (i : Nat)
    (x : T) (hx : ts.get i = some x) :
    (ts.map f).len = ts.len ∧ (ts.map f).get i = some (f x) := by
  unfold TimeSeries.get at hx
  constructor
  · simp [TimeSeries.map, TimeSeries.len]
  · unfold TimeSeries.map TimeSeries.get
    simp only [List.getElem?_map, hx, Option.map_some']

/-- Witness for C9: doubling `[1, 2, 3]` gives length 3 and element 4 at
position 1. -/
theorem claim9_map_witness :
    TimeSeries.get (⟨[1, 2, 3]⟩ : TimeSeries Int) 1 = some 2 ∧
    ((TimeSeries.map (⟨[1, 2, 3]⟩ : TimeSeries Int) (fun x => x * 2)).len =
        TimeSeries.len (⟨[1, 2, 3]⟩ : TimeSeries Int) ∧
      (TimeSeries.map (⟨[1, 2, 3]⟩ : TimeSeries Int) (fun x => x * 2)).get 1 =
        some (2 * 2)) :=
  ⟨rfl, claim9_map ⟨[1, 2, 3]⟩ (fun x => x * 2) 1 2 rfl⟩

/-- Claim C10: for each arithmetic operator, all four ownership variants
produce the same owned result: the `own+own`, `borrow+own` and
`borrow+borrow` wrappers generated by the macro all delegate (after cloning a
borrowed left operand) to the core `own+borrow` implementation, so every
variant equals the core result. -/
theorem claim10_ownership_variants {T : Type} (addOp subOp mulOp divOp : T → T → T)
    (a b : TimeSeries T) :
    TimeSeries.opOwnOwn (TimeSeries.add addOp) a b = TimeSeries.add addOp a b ∧
    TimeSeries.opRefOwn (TimeSeries.add addOp) a b = TimeSeries.add addOp a b ∧
    TimeSeries.opRefRef (TimeSeries.add addOp) a b = TimeSeries.add addOp a b ∧
    TimeSeries.opOwnOwn (TimeSeries.sub subOp) a b = TimeSeries.sub subOp a b ∧
    TimeSeries.opRefOwn (TimeSeries.sub subOp) a b = TimeSeries.sub subOp a b ∧
    TimeSeries.opRefRef (TimeSeries.sub subOp) a b = TimeSeries.sub subOp a b ∧
    TimeSeries.opOwnOwn (TimeSeries.mul mulOp) a b = TimeSeries.mul mulOp a b ∧
    TimeSeries.opRefOwn (TimeSeries.mul mulOp) a b = TimeSeries.mul mulOp a b ∧
    TimeSeries.opRefRef (TimeSeries.mul mulOp) a b = TimeSeries.mul mulOp a b ∧
    TimeSeries.opOwnOwn (TimeSeries.div divOp) a b = TimeSeries.div divOp a b ∧
    TimeSeries.opRefOwn (TimeSeries.div divOp) a b = TimeSeries.div divOp a b ∧
    TimeSeries.opRefRef (TimeSeries.div divOp) a b = TimeSeries.div divOp a b :=
  ⟨rfl, rfl, rfl, rfl, rfl, rfl, rfl, rfl, rfl, rfl, rfl, rfl⟩
